import Mathlib

/-!
# Verification of the split-file merger (`src/lolshooter2-main/merge.js`)

A shallow embedding of the file-merger script: the URL matcher
(`normalizeUrl`, `urlsMatch`), the merge engine (`mergeSplitFiles`), the
buffer store and status bookkeeping, the orchestrator (`autoMergeFiles`),
and the two request interceptors (the wrapped `window.fetch` and the
wrapped `XMLHttpRequest.send`).

Modelling conventions:
* JS strings are Lean `String`s; the character-level work is done on
  `List Char` (the `data` field of `String`).
* An `ArrayBuffer` is a `List Nat` of byte values.
* The network is a pure function `String → Response`; `Promise.all`
  indexes its results by position, so the merge result is independent of
  the order in which individual responses complete — the embedding is
  therefore deterministic by construction, which is exactly the property
  the source relies on.
* The single-threaded event loop is modelled by sequential state passing:
  `autoMergeFiles` folds its per-file task over the configuration list in
  order (one admissible interleaving of the concurrent tasks; each task
  only writes its own status key, and buffer-store keys are only ever
  added or overwritten, never removed).
* The polling loops of the interceptors are indexed by the tick counter
  `k` (the k-th firing of the 50 ms interval); the store they observe is a
  function of the tick.
-/

deriving instance DecidableEq for Except

namespace FileMerger

/-- Byte buffers (the contents of a JS `ArrayBuffer`) as lists of byte values. -/
abbrev Buffer := List Nat

/-! ## `decodeURIComponent` / `encodeURIComponent`

The script calls the JS builtins.  We model `decodeURIComponent` as a
two-stage function: first cut the input into literal characters and
percent-escaped bytes, then reassemble the escaped bytes as UTF-8
sequences (JS throws `URIError` on malformed escapes or invalid UTF-8;
the model returns `none` in those cases). -/

/-- Value of a hexadecimal digit, as accepted in a `%XY` escape. -/
def hexVal (c : Char) : Option Nat :=
  if 48 ≤ c.toNat ∧ c.toNat ≤ 57 then some (c.toNat - 48)
  else if 65 ≤ c.toNat ∧ c.toNat ≤ 70 then some (c.toNat - 55)
  else if 97 ≤ c.toNat ∧ c.toNat ≤ 102 then some (c.toNat - 87)
  else none

/-- One lexical unit of a URI-encoded string: a literal character or a
percent-escaped byte. -/
inductive UriTok where
  | lit (c : Char)
  | pct (b : Nat)
  deriving DecidableEq

/-- Cut a character list into literal characters and `%XY` escapes;
`none` if some `%` is not followed by two hex digits. -/
def uriTokens : List Char → Option (List UriTok)
  | [] => some []
  | '%' :: a :: b :: rest =>
    match hexVal a, hexVal b with
    | some hi, some lo => (uriTokens rest).map (UriTok.pct (16 * hi + lo) :: ·)
    | _, _ => none
  | '%' :: _ => none
  | c :: rest => (uriTokens rest).map (UriTok.lit c :: ·)

/-- Reassemble decoded tokens: literal characters pass through, escaped
bytes must form valid (shortest-form, non-surrogate) UTF-8 sequences. -/
def uriDecodeToks : List UriTok → Option (List Char)
  | [] => some []
  | .lit c :: rest => (uriDecodeToks rest).map (c :: ·)
  | .pct b1 :: rest =>
    if b1 < 128 then
      (uriDecodeToks rest).map (Char.ofNat b1 :: ·)
    else if 194 ≤ b1 ∧ b1 ≤ 223 then
      match rest with
      | .pct b2 :: rest2 =>
        if 128 ≤ b2 ∧ b2 ≤ 191 then
          (uriDecodeToks rest2).map (Char.ofNat ((b1 - 192) * 64 + (b2 - 128)) :: ·)
        else none
      | _ => none
    else if 224 ≤ b1 ∧ b1 ≤ 239 then
      match rest with
      | .pct b2 :: .pct b3 :: rest2 =>
        if (if b1 = 224 then 160 ≤ b2 ∧ b2 ≤ 191
            else if b1 = 237 then 128 ≤ b2 ∧ b2 ≤ 159
            else 128 ≤ b2 ∧ b2 ≤ 191) ∧ 128 ≤ b3 ∧ b3 ≤ 191 then
          (uriDecodeToks rest2).map
            (Char.ofNat ((b1 - 224) * 4096 + (b2 - 128) * 64 + (b3 - 128)) :: ·)
        else none
      | _ => none
    else if 240 ≤ b1 ∧ b1 ≤ 244 then
      match rest with
      | .pct b2 :: .pct b3 :: .pct b4 :: rest2 =>
        if (if b1 = 240 then 144 ≤ b2 ∧ b2 ≤ 191
            else if b1 = 244 then 128 ≤ b2 ∧ b2 ≤ 143
            else 128 ≤ b2 ∧ b2 ≤ 191) ∧ 128 ≤ b3 ∧ b3 ≤ 191 ∧ 128 ≤ b4 ∧ b4 ≤ 191 then
          (uriDecodeToks rest2).map
            (Char.ofNat ((b1 - 240) * 262144 + (b2 - 128) * 4096 + (b3 - 128) * 64 + (b4 - 128)) :: ·)
        else none
      | _ => none
    else none

/-- Model of JS `decodeURIComponent` on character lists: `none` models a
thrown `URIError`. -/
def decodeURIChars (l : List Char) : Option (List Char) :=
  (uriTokens l).bind uriDecodeToks

/-- Characters left unescaped by JS `encodeURIComponent`. -/
def isUnreservedURI (c : Char) : Bool :=
  c.isAlpha || c.isDigit ||
    ['-', '_', '.', '!', '~', '*', Char.ofNat 39, '(', ')'].contains c

/-- UTF-8 encoding of one character. -/
def utf8Bytes (c : Char) : List Nat :=
  let n := c.toNat
  if n < 128 then [n]
  else if n < 2048 then [192 + n / 64, 128 + n % 64]
  else if n < 65536 then [224 + n / 4096, 128 + (n / 64) % 64, 128 + n % 64]
  else [240 + n / 262144, 128 + (n / 4096) % 64, 128 + (n / 64) % 64, 128 + n % 64]

/-- Upper-case hexadecimal digit, as produced by `encodeURIComponent`. -/
def hexDigitUpper (n : Nat) : Char :=
  if n < 10 then Char.ofNat (48 + n) else Char.ofNat (55 + n)

/-- A `%XY` escape for one byte. -/
def pctEncodeByte (b : Nat) : List Char :=
  ['%', hexDigitUpper (b / 16), hexDigitUpper (b % 16)]

/-- Model of JS `encodeURIComponent` on character lists. -/
def encodeURIChars (l : List Char) : List Char :=
  l.foldr
    (fun c acc =>
      (if isUnreservedURI c then [c]
       else (utf8Bytes c).foldr (fun b a => pctEncodeByte b ++ a) []) ++ acc)
    []

/-- Model of JS `encodeURIComponent`. -/
def encodeURIComponent (s : String) : String := String.mk (encodeURIChars s.data)

/-! ## URL Matcher (`normalizeUrl`, `urlsMatch`, merge.js lines 27-48) -/

/-- `url.split('?')[0]`: the characters before the first `?`. -/
def takeUntilQ : List Char → List Char
  | [] => []
  | c :: rest => if c = '?' then [] else c :: takeUntilQ rest

/-- `s.split('/').pop()`: the characters after the last `/`. -/
def lastSeg (l : List Char) : List Char :=
  (l.reverse.takeWhile (fun c => c ≠ '/')).reverse

/-- `normalizeUrl` (merge.js lines 27-35): strip the query string, then
percent-decode; if decoding throws, return the original input unchanged. -/
def normChars (l : List Char) : List Char :=
  match decodeURIChars (takeUntilQ l) with
  | some d => d
  | none => l

/-- `normalizeUrl` at the `String` level. -/
def normalizeUrl (url : String) : String := String.mk (normChars url.data)

/-- `urlsMatch` (merge.js lines 37-48): normalized forms are equal, or one
is a suffix of the other, or the final path segments coincide. -/
def urlsMatchL (l1 l2 : List Char) : Bool :=
  let n1 := normChars l1
  let n2 := normChars l2
  n1 == n2 || (n2.isSuffixOf n1 || n1.isSuffixOf n2) || lastSeg n1 == lastSeg n2

/-- `urlsMatch` at the `String` level. -/
def urlsMatch (url1 url2 : String) : Bool := urlsMatchL url1.data url2.data

/-! ## Merge Engine (`mergeSplitFiles`, merge.js lines 50-85) -/

/-- A network response, as the script consumes it: the `ok` flag, the
numeric `status`, and the body bytes delivered by `arrayBuffer()`. -/
structure Response where
  ok : Bool
  status : Nat
  body : Buffer
  deriving DecidableEq

/-- The part paths `"<filePath>.part1" … "<filePath>.part<numParts>"`
built by the loop at merge.js lines 52-55, in ascending part order. -/
def partPaths (filePath : String) (numParts : Nat) : List String :=
  (List.range numParts).map (fun i => filePath ++ ".part" ++ toString (i + 1))

/-- `mergedArray.set(src, off)`: overwrite `dest` with `src` starting at
offset `off`. -/
def writeAt (dest src : List Nat) (off : Nat) : List Nat :=
  dest.take off ++ src ++ dest.drop (off + src.length)

/-- The copy loop at merge.js lines 73-77: write each buffer at the
running cumulative offset, in list (= ascending part-index) order. -/
def copyLoop : List Buffer → List Nat → Nat → List Nat
  | [], dest, _ => dest
  | b :: bs, dest, off => copyLoop bs (writeAt dest b off) (off + b.length)

/-- `mergeSplitFiles` (merge.js lines 50-85).  The network is a pure
function, so `Promise.all` is the positional map of that function over the
part paths; the validation loop throws at the first index whose response
is not `ok`, and the success path allocates a zeroed buffer of the summed
size and copies each part at its cumulative offset. -/
def mergeSplitFiles (net : String → Response) (filePath : String) (numParts : Nat) :
    Except String Buffer :=
  let parts := partPaths filePath numParts
  let responses := parts.map net
  match (parts.zip responses).find? (fun pr => !pr.2.ok) with
  | some (p, r) => Except.error ("Failed to load " ++ p ++ ": " ++ toString r.status)
  | none =>
    let buffers := responses.map (·.body)
    let totalSize := buffers.foldl (fun sum buf => sum + buf.length) 0
    Except.ok (copyLoop buffers (List.replicate totalSize 0) 0)

/-! ## Configuration, status map and buffer store -/

/-- One entry of `config.files`. -/
structure FileSpec where
  name : String
  parts : Nat
  deriving DecidableEq

/-- The configuration fields the merger logic reads (`debug` and
`autoDetect` only affect logging / are dead options). -/
structure Config where
  files : List FileSpec
  basePath : String
  deriving DecidableEq

/-- Status of one file's merge task. -/
inductive MergeStatus where
  | pending
  | merging
  | ready
  | failed
  deriving DecidableEq

/-- Read a property of a JS object modelled as an insertion-ordered
association list with unique keys: the first matching entry. -/
def objGet {α : Type} : List (String × α) → String → Option α
  | [], _ => none
  | (k1, v1) :: rest, k => if k1 = k then some v1 else objGet rest k

/-- Assign a property of a JS object: overwrite the existing entry in
place, or append a new one. -/
def objSet {α : Type} : List (String × α) → String → α → List (String × α)
  | [], k, v => [(k, v)]
  | (k1, v1) :: rest, k, v =>
    if k1 = k then (k1, v) :: rest else (k1, v1) :: objSet rest k v

/-- The script's shared mutable state: `window.mergedFiles` (the buffer
store) and `mergeStatus`. -/
structure MergeState where
  mergedFiles : List (String × Buffer)
  mergeStatus : List (String × MergeStatus)
  deriving DecidableEq

/-- `config.basePath ? basePath + name : name` (empty string is falsy). -/
def fullPathOf (basePath name : String) : String :=
  if basePath = "" then name else basePath ++ name

/-- `shouldInterceptFile` (merge.js lines 87-106): never intercept a URL
whose normalized form contains `.part`; otherwise return the name of the
first configured file that the URL matches (directly or with the base
path) and whose status is `ready`. -/
def shouldInterceptFile (cfg : Config) (stat : List (String × MergeStatus))
    (url : String) : Option String :=
  let urlStr := normChars url.data
  if List.IsInfix (".part".data) urlStr then none
  else
    cfg.files.findSome? (fun file : FileSpec =>
      let fullPath := fullPathOf cfg.basePath file.name
      if (urlsMatchL urlStr file.name.data || urlsMatchL urlStr fullPath.data)
          && (objGet stat file.name == some MergeStatus.ready) then
        some file.name
      else none)

/-- `getMergedFile` (merge.js lines 108-120): exact key first (a stored
`ArrayBuffer` is always truthy), then a scan over the entries in
insertion order using `urlsMatch`. -/
def getMergedFile (m : List (String × Buffer)) (filename : String) : Option Buffer :=
  match objGet m filename with
  | some buf => some buf
  | none => (m.find? (fun kv => urlsMatch kv.1 filename)).map (·.2)

/-! ## Merge Orchestrator (`autoMergeFiles`, merge.js lines 262-306) -/

/-- One file's task (merge.js lines 271-291): mark `merging`, run the
merge; on success publish the buffer under the five filename variants and
mark `ready`; on failure mark `failed` and publish nothing. -/
def processFile (net : String → Response) (basePath : String)
    (st : MergeState) (file : FileSpec) : MergeState :=
  let fullPath := fullPathOf basePath file.name
  let stat1 := objSet st.mergeStatus file.name MergeStatus.merging
  match mergeSplitFiles net fullPath file.parts with
  | Except.ok buffer =>
    let m1 := objSet st.mergedFiles file.name buffer
    let m2 := objSet m1 fullPath buffer
    let basename := String.mk (lastSeg file.name.data)
    let m3 := objSet m2 basename buffer
    let m4 := objSet m3 (encodeURIComponent file.name) buffer
    let m5 := objSet m4 (encodeURIComponent fullPath) buffer
    { mergedFiles := m5, mergeStatus := objSet stat1 file.name MergeStatus.ready }
  | Except.error _ =>
    { st with mergeStatus := objSet stat1 file.name MergeStatus.failed }

/-- `autoMergeFiles`: run every configured file's task.  The fold fixes
one admissible interleaving (configuration order) of the logically
concurrent tasks; each task writes only its own status key, so the final
per-file outcome does not depend on the interleaving. -/
def autoMergeFiles (net : String → Response) (cfg : Config) : MergeState :=
  cfg.files.foldl (processFile net cfg.basePath) ⟨[], []⟩

/-! ## Request Interceptor, fetch-style (merge.js lines 122-162) -/

/-- The synthesized `Response` built at merge.js lines 145-152. -/
structure SynthResponse where
  status : Nat
  statusText : String
  contentType : String
  contentLength : Nat
  body : Buffer
  deriving DecidableEq

/-- Body of the `resolve(new Response(...))` call: status 200, the merged
buffer as body, and a content type derived from the file extension. -/
def synthResponse (filename : String) (buffer : Buffer) : SynthResponse :=
  { status := 200
    statusText := "OK"
    contentType :=
      if (".wasm".data).isSuffixOf filename.data then "application/wasm"
      else "application/octet-stream"
    contentLength := buffer.length
    body := buffer }

/-- Outcome of the promise returned by an intercepted fetch. -/
inductive FetchOutcome where
  | resolved (r : SynthResponse)
  | timedOut (message : String)
  deriving DecidableEq

/-- The `setInterval` polling loop at merge.js lines 132-158, indexed by
the tick counter: tick `k` is the k-th firing of the 50 ms interval, at
elapsed time `50 * (k + 1)`.  At each tick the loop first checks the
store and resolves if a buffer is there; only otherwise does it compare
the elapsed time against `maxWait = 30000` and reject. -/
def pollFetch (bufAt : Nat → Option Buffer) (filename : String) (k : Nat) :
    FetchOutcome :=
  match bufAt k with
  | some b => FetchOutcome.resolved (synthResponse filename b)
  | none =>
    if h : 50 * (k + 1) > 30000 then
      FetchOutcome.timedOut ("Timeout waiting for merged file: " ++ filename)
    else pollFetch bufAt filename (k + 1)
termination_by 601 - k
decreasing_by simp only [gt_iff_lt, not_lt] at h; omega

/-- Observable result of one call to the wrapped `window.fetch`. -/
inductive FetchResult (α : Type) where
  | intercepted (outcome : FetchOutcome)
  | delegated (result : α)
  deriving DecidableEq

/-- The wrapped `window.fetch` (merge.js lines 126-162): intercept and
poll when `shouldInterceptFile` names a file, otherwise delegate the
unchanged `url` and `args` to the original primitive.  `storeAt k` is the
buffer store as the k-th interval tick observes it. -/
def wrappedFetch {α : Type} (cfg : Config) (stat : List (String × MergeStatus))
    (storeAt : Nat → List (String × Buffer)) (orig : String → List String → α)
    (url : String) (args : List String) : FetchResult α :=
  match shouldInterceptFile cfg stat url with
  | some filename =>
    FetchResult.intercepted
      (pollFetch (fun k => getMergedFile (storeAt k) filename) filename 0)
  | none => FetchResult.delegated (orig url args)

/-! ## Request Interceptor, callback/event-style (merge.js lines 164-257) -/

/-- One notification fired by the synthesized XHR completion. -/
inductive XhrEvent where
  | progress (lengthComputable : Bool) (loaded total : Nat)
  | load (lengthComputable : Bool) (loaded total : Nat)
  | readyStateChange
  deriving DecidableEq

/-- The impersonated terminal state of the request object, together with
the notifications scheduled after the fixed 10 ms delay (merge.js lines
188-243). -/
structure SynthXhr where
  responseBody : Buffer
  responseType : String
  status : Nat
  statusText : String
  readyState : Nat
  delayMs : Nat
  events : List XhrEvent
  deriving DecidableEq

/-- The success branch of `waitForMerge` (merge.js lines 188-243):
redefine the object's terminal properties, then after a 10 ms delay fire
the progress, load and state-change handlers — in that source order, each
only if the caller installed it. -/
def synthesizeXhr (buffer : Buffer) (hasProgress hasLoad hasRSC : Bool) : SynthXhr :=
  { responseBody := buffer
    responseType := "arraybuffer"
    status := 200
    statusText := "OK"
    readyState := 4
    delayMs := 10
    events :=
      (if hasProgress then [XhrEvent.progress true buffer.length buffer.length] else []) ++
      (if hasLoad then [XhrEvent.load true buffer.length buffer.length] else []) ++
      (if hasRSC then [XhrEvent.readyStateChange] else []) }

/-- The unbounded `waitForMerge` polling loop observed up to `fuel`
ticks: `some` once a tick finds a buffer, `none` if none of the observed
ticks did (the loop itself re-schedules forever). -/
def xhrPoll (bufAt : Nat → Option Buffer) (hasProgress hasLoad hasRSC : Bool) :
    Nat → Nat → Option SynthXhr
  | _, 0 => none
  | k, fuel + 1 =>
    match bufAt k with
    | some b => some (synthesizeXhr b hasProgress hasLoad hasRSC)
    | none => xhrPoll bufAt hasProgress hasLoad hasRSC (k + 1) fuel

/-- Observable result of one dispatch of the wrapped `xhr.send`. -/
inductive XhrSendStep (β : Type) where
  | completed (s : SynthXhr)
  | polling
  | delegated (result : β)
  deriving DecidableEq

/-- The wrapped `xhr.send` (merge.js lines 179-254), one dispatch: if the
recorded URL is intercepted, either complete immediately from the store
or keep polling; otherwise delegate the unchanged arguments to the
original `send`. -/
def wrappedXhrSend {β : Type} (cfg : Config) (stat : List (String × MergeStatus))
    (store : List (String × Buffer)) (hasProgress hasLoad hasRSC : Bool)
    (origSend : List String → β) (requestUrl : String) (args : List String) :
    XhrSendStep β :=
  match shouldInterceptFile cfg stat requestUrl with
  | some filename =>
    match getMergedFile store filename with
    | some b => XhrSendStep.completed (synthesizeXhr b hasProgress hasLoad hasRSC)
    | none => XhrSendStep.polling
  | none => XhrSendStep.delegated (origSend args)

/-! ## Proof-layer definitions and concrete instances -/

/-- The merge the orchestrator runs for one configured file. -/
def mergeOutcome (net : String → Response) (basePath : String) (f : FileSpec) :
    Except String Buffer :=
  mergeSplitFiles net (fullPathOf basePath f.name) f.parts

/-- Terminal status produced by one file's task. -/
def statusOf : Except String Buffer → MergeStatus
  | Except.ok _ => MergeStatus.ready
  | Except.error _ => MergeStatus.failed

/-- The five filename variants a successful merge is published under
(merge.js lines 276-283). -/
def variantsOf (basePath : String) (f : FileSpec) : List String :=
  [f.name, fullPathOf basePath f.name, String.mk (lastSeg f.name.data),
   encodeURIComponent f.name, encodeURIComponent (fullPathOf basePath f.name)]

/-- Invariant connecting the status map and the buffer store: a `ready`
file has a buffer stored under its exact name. -/
def storeInv (st : MergeState) : Prop :=
  ∀ n, objGet st.mergeStatus n = some MergeStatus.ready →
    (objGet st.mergedFiles n).isSome = true

/-- Network used to witness C1: two healthy parts for file `f`. -/
def netC1 : String → Response := fun p =>
  if p = "f.part1" then ⟨true, 200, [10, 20]⟩
  else if p = "f.part2" then ⟨true, 200, [30]⟩
  else ⟨false, 404, []⟩

/-- Network used to witness C2: part 2 of `x.bin` fails, `y.bin` is healthy. -/
def netC2 : String → Response := fun p =>
  if p = "/a/x.bin.part1" then ⟨true, 200, [1]⟩
  else if p = "/a/x.bin.part2" then ⟨false, 404, []⟩
  else if p = "/a/x.bin.part3" then ⟨true, 200, [3]⟩
  else if p = "/a/y.bin.part1" then ⟨true, 200, [9, 9]⟩
  else ⟨false, 500, []⟩

/-- Configuration used to witness C2. -/
def cfgC2 : Config := ⟨[⟨"x.bin", 3⟩, ⟨"y.bin", 1⟩], "/a/"⟩

/-- Configuration used to witness C5. -/
def cfgC5 : Config := ⟨[⟨"model.bin", 3⟩], "/assets/"⟩

/-- Network used for the C3 counterexample and witness: every part fetch
fails with a 404, so `model.bin`'s merge fails. -/
def netC3 : String → Response := fun _ => ⟨false, 404, []⟩

/-- Configuration used for the C3 counterexample and witness. -/
def cfgC3 : Config := ⟨[⟨"model.bin", 1⟩], "/assets/"⟩

/-- Configuration used to witness C6. -/
def cfgC6 : Config := ⟨[⟨"model.bin", 2⟩], "/assets/"⟩

/-- Network used for the C8 counterexample: two files with colliding
basenames, merged from one healthy part each, with different bytes. -/
def netC8 : String → Response := fun p =>
  if p = "a/x.part1" then ⟨true, 200, [1]⟩
  else if p = "b/x.part1" then ⟨true, 200, [2]⟩
  else ⟨false, 404, []⟩

/-- Configuration used for the C8 counterexample. -/
def cfgC8 : Config := ⟨[⟨"a/x", 1⟩, ⟨"b/x", 1⟩], ""⟩

/-- Network used to witness the amended C8. -/
def netC8w : String → Response := fun p =>
  if p = "/a/m.bin.part1" then ⟨true, 200, [4, 5]⟩ else ⟨false, 404, []⟩

/-- Configuration used to witness the amended C8. -/
def cfgC8w : Config := ⟨[⟨"m.bin", 1⟩], "/a/"⟩

/-- Network used to witness C10. -/
def netC10 : String → Response := fun p =>
  if p = "m.wasm.part1" then ⟨true, 200, [7]⟩ else ⟨false, 404, []⟩

/-- Configuration used to witness C10. -/
def cfgC10 : Config := ⟨[⟨"m.wasm", 1⟩], ""⟩

/-! ## Association-list (JS object) lemmas -/

theorem objGet_objSet_self {α : Type} (m : List (String × α)) (k : String) (v : α) :
    objGet (objSet m k v) k = some v := by
  induction m with
  | nil => simp [objSet, objGet]
  | cons kv rest ih =>
    obtain ⟨k1, v1⟩ := kv
    by_cases h : k1 = k <;> simp [objSet, objGet, h, ih]

theorem objGet_objSet_ne {α : Type} (m : List (String × α)) (k k2 : String) (v : α)
    (h : k ≠ k2) : objGet (objSet m k v) k2 = objGet m k2 := by
  induction m with
  | nil => simp [objSet, objGet, h]
  | cons kv rest ih =>
    obtain ⟨k1, v1⟩ := kv
    by_cases h1 : k1 = k
    · subst h1; simp [objSet, objGet, h]
    · simp [objSet, objGet, h1, ih]

theorem objGet_objSet_isSome {α : Type} (m : List (String × α)) (k k2 : String) (v : α)
    (h : (objGet m k2).isSome = true) : (objGet (objSet m k v) k2).isSome = true := by
  by_cases hk : k = k2
  · subst hk; simp [objGet_objSet_self]
  · rwa [objGet_objSet_ne _ _ _ _ hk]

/-! ## Merge Engine lemmas -/

theorem foldl_add_length (bs : List Buffer) (n : Nat) :
    bs.foldl (fun sum buf => sum + buf.length) n = n + (bs.map List.length).sum := by
  induction bs generalizing n with
  | nil => simp
  | cons b bs ih => simp [ih, Nat.add_assoc]

theorem copyLoop_eq_flatten (bs : List Buffer) (dest : List Nat) (off : Nat)
    (h : dest.length = off + (bs.map List.length).sum) :
    copyLoop bs dest off = dest.take off ++ bs.flatten := by
  induction bs generalizing dest off with
  | nil =>
    simp only [copyLoop, List.map_nil, List.sum_nil, Nat.add_zero] at *
    rw [← h, List.take_length, List.flatten_nil, List.append_nil]
  | cons b bs ih =>
    have hoff : off + b.length ≤ dest.length := by simp at h; omega
    have hlen : (writeAt dest b off).length = (off + b.length) + (bs.map List.length).sum := by
      simp only [writeAt, List.length_append, List.length_take, List.length_drop]
      simp at h; omega
    rw [copyLoop, ih (writeAt dest b off) (off + b.length) hlen] at *
    have htake : (writeAt dest b off).take (off + b.length) = dest.take off ++ b := by
      have hl : (dest.take off ++ b).length = off + b.length := by
        simp only [List.length_append, List.length_take]; omega
      calc (writeAt dest b off).take (off + b.length)
          = ((dest.take off ++ b) ++ dest.drop (off + b.length)).take (off + b.length) := by
            simp [writeAt, List.append_assoc]
        _ = dest.take off ++ b := List.take_left' hl
    rw [htake, List.flatten_cons, List.append_assoc]

theorem zip_self_map {α β : Type} (l : List α) (f : α → β) :
    l.zip (l.map f) = l.map (fun a => (a, f a)) := by
  induction l with
  | nil => rfl
  | cons a t ih => simp [List.zip_cons_cons, ih]

theorem mergeSplitFiles_ok (net : String → Response) (filePath : String) (numParts : Nat)
    (hok : ∀ p ∈ partPaths filePath numParts, (net p).ok = true) :
    mergeSplitFiles net filePath numParts =
      Except.ok (((partPaths filePath numParts).map (fun p => (net p).body)).flatten) := by
  have hcomp : ((fun pr : String × Response => !pr.2.ok) ∘ fun p => (p, net p)) =
      (fun p : String => !(net p).ok) := rfl
  have hfind0 : (partPaths filePath numParts).find? (fun p => !(net p).ok) = none := by
    rw [List.find?_eq_none]
    intro p hp
    simp [hok p hp]
  have hfind : ((partPaths filePath numParts).zip ((partPaths filePath numParts).map net)).find?
      (fun pr => !pr.2.ok) = none := by
    rw [zip_self_map, List.find?_map, hcomp, hfind0]
    rfl
  simp only [mergeSplitFiles, hfind]
  rw [copyLoop_eq_flatten]
  · rw [List.take_zero, List.nil_append, List.map_map]
    rfl
  · rw [List.length_replicate, foldl_add_length, Nat.zero_add, List.map_map]

theorem mergeSplitFiles_fail (net : String → Response) (filePath : String) (numParts : Nat)
    (hfail : ∃ p ∈ partPaths filePath numParts, (net p).ok = false) :
    ∃ p ∈ partPaths filePath numParts, (net p).ok = false ∧
      mergeSplitFiles net filePath numParts =
        Except.error ("Failed to load " ++ p ++ ": " ++ toString (net p).status) := by
  have hcomp : ((fun pr : String × Response => !pr.2.ok) ∘ fun p => (p, net p)) =
      (fun p : String => !(net p).ok) := rfl
  have hsome : ((partPaths filePath numParts).find? (fun p => !(net p).ok)).isSome = true := by
    rw [List.find?_isSome]
    obtain ⟨p, hp, hnok⟩ := hfail
    exact ⟨p, hp, by simp [hnok]⟩
  obtain ⟨p0, hp0⟩ := Option.isSome_iff_exists.mp hsome
  refine ⟨p0, List.mem_of_find?_eq_some hp0, ?_, ?_⟩
  · have := List.find?_some hp0
    simpa using this
  · have hfind : ((partPaths filePath numParts).zip
        ((partPaths filePath numParts).map net)).find? (fun pr => !pr.2.ok) =
        some (p0, net p0) := by
      rw [zip_self_map, List.find?_map, hcomp, hp0]
      rfl
    simp only [mergeSplitFiles, hfind]

/-! ## Orchestrator lemmas -/

theorem processFile_status_self (net : String → Response) (basePath : String)
    (st : MergeState) (f : FileSpec) :
    objGet (processFile net basePath st f).mergeStatus f.name =
      some (statusOf (mergeOutcome net basePath f)) := by
  rcases hout : mergeOutcome net basePath f with e | buf <;>
    simp only [processFile, mergeOutcome] at hout ⊢ <;>
    rw [hout] <;> simp [statusOf, objGet_objSet_self]

theorem processFile_status_ne (net : String → Response) (basePath : String)
    (st : MergeState) (f : FileSpec) (n : String) (h : f.name ≠ n) :
    objGet (processFile net basePath st f).mergeStatus n = objGet st.mergeStatus n := by
  rcases hout : mergeSplitFiles net (fullPathOf basePath f.name) f.parts with e | buf <;>
    simp only [processFile] <;> rw [hout] <;>
    simp [objGet_objSet_ne _ _ _ _ h]

theorem processFile_fail_merged (net : String → Response) (basePath : String)
    (st : MergeState) (f : FileSpec) (e : String)
    (h : mergeOutcome net basePath f = Except.error e) :
    (processFile net basePath st f).mergedFiles = st.mergedFiles := by
  simp only [processFile, mergeOutcome] at h ⊢
  rw [h]

theorem processFile_ok_merged (net : String → Response) (basePath : String)
    (st : MergeState) (f : FileSpec) (buf : Buffer)
    (h : mergeOutcome net basePath f = Except.ok buf) (v : String) :
    objGet (processFile net basePath st f).mergedFiles v =
      if v ∈ variantsOf basePath f then some buf else objGet st.mergedFiles v := by
  simp only [processFile, mergeOutcome] at h ⊢
  rw [h]
  simp only [variantsOf, List.mem_cons, List.mem_singleton]
  by_cases h5 : v = encodeURIComponent (fullPathOf basePath f.name)
  · subst h5; simp [objGet_objSet_self]
  · rw [show objGet (objSet (objSet (objSet (objSet (objSet st.mergedFiles f.name buf)
        (fullPathOf basePath f.name) buf) (String.mk (lastSeg f.name.data)) buf)
        (encodeURIComponent f.name) buf) (encodeURIComponent (fullPathOf basePath f.name)) buf) v
        = objGet (objSet (objSet (objSet (objSet st.mergedFiles f.name buf)
        (fullPathOf basePath f.name) buf) (String.mk (lastSeg f.name.data)) buf)
        (encodeURIComponent f.name) buf) v from
      objGet_objSet_ne _ _ _ _ (fun hh => h5 hh.symm)]
    by_cases h4 : v = encodeURIComponent f.name
    · subst h4; simp [objGet_objSet_self]
    · rw [objGet_objSet_ne _ _ _ _ (fun hh => h4 hh.symm)]
      by_cases h3 : v = String.mk (lastSeg f.name.data)
      · subst h3; simp [objGet_objSet_self]
      · rw [objGet_objSet_ne _ _ _ _ (fun hh => h3 hh.symm)]
        by_cases h2 : v = fullPathOf basePath f.name
        · subst h2; simp [objGet_objSet_self]
        · rw [objGet_objSet_ne _ _ _ _ (fun hh => h2 hh.symm)]
          by_cases h1 : v = f.name
          · subst h1; simp [objGet_objSet_self]
          · rw [objGet_objSet_ne _ _ _ _ (fun hh => h1 hh.symm)]
            simp [h1, h2, h3, h4, h5]

theorem processFile_merged_isSome (net : String → Response) (basePath : String)
    (st : MergeState) (f : FileSpec) (n : String)
    (h : (objGet st.mergedFiles n).isSome = true) :
    (objGet (processFile net basePath st f).mergedFiles n).isSome = true := by
  rcases hout : mergeOutcome net basePath f with e | buf
  · rw [processFile_fail_merged net basePath st f e hout]
    exact h
  · rw [processFile_ok_merged net basePath st f buf hout n]
    split
    · rfl
    · exact h

theorem foldl_status_notin (net : String → Response) (basePath : String)
    (l : List FileSpec) (st : MergeState) (n : String) (hl : ∀ g ∈ l, g.name ≠ n) :
    objGet (l.foldl (processFile net basePath) st).mergeStatus n = objGet st.mergeStatus n := by
  induction l generalizing st with
  | nil => rfl
  | cons a t ih =>
    rw [List.foldl_cons, ih _ (fun g hg => hl g (List.mem_cons_of_mem a hg)),
      processFile_status_ne _ _ _ _ _ (hl a (List.mem_cons_self a t))]

theorem foldl_status_eq (net : String → Response) (basePath : String)
    (l : List FileSpec) (st : MergeState) (f : FileSpec) (hmem : f ∈ l)
    (hnd : (l.map FileSpec.name).Nodup) :
    objGet (l.foldl (processFile net basePath) st).mergeStatus f.name =
      some (statusOf (mergeOutcome net basePath f)) := by
  induction l generalizing st with
  | nil => exact absurd hmem (List.not_mem_nil f)
  | cons a t ih =>
    rw [List.map_cons, List.nodup_cons] at hnd
    rcases List.mem_cons.mp hmem with rfl | hft
    · rw [List.foldl_cons,
        foldl_status_notin net basePath t _ f.name
          (fun g hg hgn => hnd.1 (hgn ▸ List.mem_map_of_mem FileSpec.name hg)),
        processFile_status_self]
    · exact ih _ hft hnd.2

theorem autoMerge_status (net : String → Response) (cfg : Config) (f : FileSpec)
    (hmem : f ∈ cfg.files) (hnd : (cfg.files.map FileSpec.name).Nodup) :
    objGet (autoMergeFiles net cfg).mergeStatus f.name =
      some (statusOf (mergeOutcome net cfg.basePath f)) :=
  foldl_status_eq net cfg.basePath cfg.files _ f hmem hnd

theorem processFile_storeInv (net : String → Response) (basePath : String)
    (st : MergeState) (f : FileSpec) (h : storeInv st) :
    storeInv (processFile net basePath st f) := by
  intro n hready
  by_cases hn : n = f.name
  · subst hn
    rw [processFile_status_self] at hready
    rcases hout : mergeOutcome net basePath f with e | buf
    · rw [hout] at hready
      simp [statusOf] at hready
    · rw [processFile_ok_merged net basePath st f buf hout f.name]
      simp [variantsOf]
  · rw [processFile_status_ne net basePath st f n (fun hh => hn hh.symm)] at hready
    exact processFile_merged_isSome net basePath st f n (h n hready)

theorem autoMerge_storeInv (net : String → Response) (cfg : Config) :
    storeInv (autoMergeFiles net cfg) := by
  have haux : ∀ (l : List FileSpec) (st : MergeState), storeInv st →
      storeInv (l.foldl (processFile net cfg.basePath) st) := by
    intro l
    induction l with
    | nil => exact fun st h => h
    | cons a t ih =>
      intro st h
      exact ih _ (processFile_storeInv net cfg.basePath st a h)
  exact haux cfg.files ⟨[], []⟩ (fun n h => by simp [objGet] at h)

/-! ## Polling-loop lemmas -/

theorem pollFetch_resolves (bufAt : Nat → Option Buffer) (fname : String) (b : Buffer)
    (k : Nat) (hk : k ≤ 600) (hb : bufAt k = some b)
    (hmin : ∀ j, j < k → bufAt j = none) :
    pollFetch bufAt fname 0 = FetchOutcome.resolved (synthResponse fname b) := by
  have aux : ∀ n s, k - s ≤ n → s ≤ k →
      pollFetch bufAt fname s = FetchOutcome.resolved (synthResponse fname b) := by
    intro n
    induction n with
    | zero =>
      intro s h1 h2
      have hs : s = k := by omega
      subst hs
      rw [pollFetch.eq_def, hb]
    | succ n ih =>
      intro s h1 h2
      by_cases hs : s = k
      · subst hs
        rw [pollFetch.eq_def, hb]
      · have hlt : s < k := by omega
        rw [pollFetch.eq_def, hmin s hlt]
        have hto : ¬ 50 * (s + 1) > 30000 := by omega
        rw [dif_neg hto]
        exact ih (s + 1) (by omega) (by omega)
  exact aux k 0 (by omega) (by omega)

theorem pollFetch_times_out (bufAt : Nat → Option Buffer) (fname : String)
    (hnone : ∀ j, j ≤ 600 → bufAt j = none) :
    pollFetch bufAt fname 0 =
      FetchOutcome.timedOut ("Timeout waiting for merged file: " ++ fname) := by
  have aux : ∀ n s, 601 - s ≤ n → s ≤ 600 →
      pollFetch bufAt fname s =
        FetchOutcome.timedOut ("Timeout waiting for merged file: " ++ fname) := by
    intro n
    induction n with
    | zero => intro s h1 h2; omega
    | succ n ih =>
      intro s h1 h2
      rw [pollFetch.eq_def, hnone s h2]
      by_cases hto : 50 * (s + 1) > 30000
      · rw [dif_pos hto]
      · rw [dif_neg hto]
        exact ih (s + 1) (by omega) (by omega)
  exact aux 601 0 (by omega) (by omega)

theorem xhrPoll_completes (bufAt : Nat → Option Buffer) (hasP hasL hasR : Bool)
    (b : Buffer) (k : Nat) (hb : bufAt k = some b)
    (hmin : ∀ j, j < k → bufAt j = none) :
    ∀ fuel s, s ≤ k → k < s + fuel →
      xhrPoll bufAt hasP hasL hasR s fuel = some (synthesizeXhr b hasP hasL hasR) := by
  intro fuel
  induction fuel with
  | zero => intro s h1 h2; omega
  | succ n ih =>
    intro s h1 h2
    by_cases hs : s = k
    · subst hs
      show (match bufAt s with
        | some b => some (synthesizeXhr b hasP hasL hasR)
        | none => xhrPoll bufAt hasP hasL hasR (s + 1) n) = _
      rw [hb]
    · have hlt : s < k := by omega
      show (match bufAt s with
        | some b => some (synthesizeXhr b hasP hasL hasR)
        | none => xhrPoll bufAt hasP hasL hasR (s + 1) n) = _
      rw [hmin s hlt]
      exact ih (s + 1) (by omega) (by omega)

/-! ## Plain-URL lemmas (no query marker, no percent escape) -/

theorem takeUntilQ_of_no_q (l : List Char) (h : ∀ c ∈ l, c ≠ '?') : takeUntilQ l = l := by
  induction l with
  | nil => rfl
  | cons c t ih =>
    simp only [takeUntilQ, if_neg (h c (List.mem_cons_self c t))]
    rw [ih (fun x hx => h x (List.mem_cons_of_mem c hx))]

theorem uriDecodeToks_lit (l : List Char) : uriDecodeToks (l.map UriTok.lit) = some l := by
  induction l with
  | nil => rfl
  | cons c t ih =>
    rw [List.map_cons]
    show (uriDecodeToks (List.map UriTok.lit t)).map (c :: ·) = some (c :: t)
    rw [ih]
    rfl

theorem uriTokens_of_no_pct (l : List Char) (h : ∀ c ∈ l, c ≠ '%') :
    uriTokens l = some (l.map UriTok.lit) := by
  induction l with
  | nil => rfl
  | cons c t ih =>
    have hc : c ≠ '%' := h c (List.mem_cons_self c t)
    rw [show uriTokens (c :: t) = (uriTokens t).map (UriTok.lit c :: ·) by simp [uriTokens, hc]]
    rw [ih (fun x hx => h x (List.mem_cons_of_mem c hx))]
    rfl

theorem decodeURIChars_of_no_pct (l : List Char) (h : ∀ c ∈ l, c ≠ '%') :
    decodeURIChars l = some l := by
  rw [decodeURIChars, uriTokens_of_no_pct l h, Option.some_bind, uriDecodeToks_lit]

theorem normChars_plain (l : List Char) (hq : ∀ c ∈ l, c ≠ '?')
    (hp : ∀ c ∈ l, c ≠ '%') : normChars l = l := by
  rw [normChars, takeUntilQ_of_no_q l hq, decodeURIChars_of_no_pct l hp]

theorem isDigit_ne_special (c : Char) (h : c.isDigit = true) : c ≠ '?' ∧ c ≠ '%' := by
  constructor <;> rintro rfl <;> exact absurd h (by decide)

/-! ## Percent-escapes straddling a `.part` suffix

A request URL for a part file is `<path>.part<i>`.  Even when `<path>`
contains percent-escapes, normalization cannot erase the `.part` suffix:
an escape sequence at the end of `<path>` would have to consume the `.`,
which is not a hexadecimal digit, so tokenization fails (and `normalizeUrl`
returns the input unchanged); otherwise the suffix survives decoding as
literal characters.  The lemmas below make this precise. -/

theorem map_cons_some {α : Type} (o : Option (List α)) (a : α) (d : List α)
    (h : o.map (a :: ·) = some d) : ∃ x, o = some x ∧ d = a :: x := by
  rcases o with _ | x
  · simp at h
  · refine ⟨x, rfl, ?_⟩
    simpa using h.symm

theorem uriTokens_pct_cons (a b : Char) (rest : List Char) :
    uriTokens ('%' :: a :: b :: rest) =
      (match hexVal a, hexVal b with
       | some hi, some lo => (uriTokens rest).map (UriTok.pct (16 * hi + lo) :: ·)
       | _, _ => none) := rfl

theorem uriTokens_cons_of_ne (c : Char) (rest : List Char) (hc : c ≠ '%') :
    uriTokens (c :: rest) = (uriTokens rest).map (UriTok.lit c :: ·) := by
  simp [uriTokens, hc]

theorem uriTokens_append_dot (zs : List Char) (hzs : ∀ c ∈ zs, c ≠ '%') :
    ∀ (n : Nat) (xs : List Char) (ts : List UriTok), xs.length ≤ n →
      uriTokens (xs ++ '.' :: zs) = some ts →
      ∃ txs, uriTokens xs = some txs ∧
        ts = txs ++ UriTok.lit '.' :: zs.map UriTok.lit := by
  have hbase : ∀ ts, uriTokens ('.' :: zs) = some ts →
      ts = UriTok.lit '.' :: zs.map UriTok.lit := by
    intro ts h
    rw [uriTokens_of_no_pct ('.' :: zs)
      (fun c hc => by
        rcases List.mem_cons.mp hc with rfl | hmem
        · decide
        · exact hzs c hmem)] at h
    simpa using (Option.some.inj h).symm
  intro n
  induction n with
  | zero =>
    intro xs ts hlen h
    have hx : xs = [] := List.length_eq_zero.mp (Nat.le_zero.mp hlen)
    subst hx
    exact ⟨[], rfl, hbase ts h⟩
  | succ n ih =>
    intro xs ts hlen h
    rcases xs with _ | ⟨c, rest⟩
    · exact ⟨[], rfl, hbase ts h⟩
    · by_cases hc : c = '%'
      · subst hc
        rcases rest with _ | ⟨a, rest2⟩
        · rcases zs with _ | ⟨z1, zs1⟩
          · rw [show (['%'] ++ ['.'] : List Char) = ['%', '.'] from rfl] at h
            rw [show uriTokens ['%', '.'] = none from rfl] at h
            exact Option.noConfusion h
          · rw [show (['%'] ++ '.' :: z1 :: zs1 : List Char) = '%' :: '.' :: z1 :: zs1
              from rfl] at h
            rw [show uriTokens ('%' :: '.' :: z1 :: zs1) = none from rfl] at h
            exact Option.noConfusion h
        · rcases rest2 with _ | ⟨b, rest3⟩
          · rw [show ('%' :: [a] ++ '.' :: zs : List Char) = '%' :: a :: '.' :: zs
              from rfl, uriTokens_pct_cons] at h
            rcases hha : hexVal a with _ | hi <;> rw [hha] at h
            · change (none : Option (List UriTok)) = some ts at h
              exact Option.noConfusion h
            · change (none : Option (List UriTok)) = some ts at h
              exact Option.noConfusion h
          · rw [show ('%' :: a :: b :: rest3 ++ '.' :: zs : List Char) =
              '%' :: a :: b :: (rest3 ++ '.' :: zs) from rfl, uriTokens_pct_cons] at h
            rcases hha : hexVal a with _ | hi <;> rw [hha] at h
            · change (none : Option (List UriTok)) = some ts at h
              exact Option.noConfusion h
            · rcases hhb : hexVal b with _ | lo <;> rw [hhb] at h
              · change (none : Option (List UriTok)) = some ts at h
                exact Option.noConfusion h
              · change (uriTokens (rest3 ++ '.' :: zs)).map
                  (UriTok.pct (16 * hi + lo) :: ·) = some ts at h
                obtain ⟨x, hx, hts⟩ := map_cons_some _ _ _ h
                obtain ⟨txs, htxs, hxd⟩ := ih rest3 x (by simp at hlen; omega) hx
                refine ⟨UriTok.pct (16 * hi + lo) :: txs, ?_, ?_⟩
                · rw [uriTokens_pct_cons, hha, hhb]
                  change (uriTokens rest3).map (UriTok.pct (16 * hi + lo) :: ·) =
                    some (UriTok.pct (16 * hi + lo) :: txs)
                  rw [htxs]
                  rfl
                · rw [hts, hxd]
                  rfl
      · rw [List.cons_append, uriTokens_cons_of_ne c (rest ++ '.' :: zs) hc] at h
        obtain ⟨x, hx, hts⟩ := map_cons_some _ _ _ h
        obtain ⟨txs, htxs, hxd⟩ := ih rest x (by simp at hlen; omega) hx
        refine ⟨UriTok.lit c :: txs, ?_, ?_⟩
        · rw [uriTokens_cons_of_ne c rest hc, htxs]
          rfl
        · rw [hts, hxd]
          rfl

theorem uriDecodeToks_lit_cons (c : Char) (rest : List UriTok) :
    uriDecodeToks (UriTok.lit c :: rest) = (uriDecodeToks rest).map (c :: ·) := rfl

theorem uriDecodeToks_pct_one (b1 : Nat) :
    uriDecodeToks [UriTok.pct b1] =
      (if b1 < 128 then (uriDecodeToks ([] : List UriTok)).map (Char.ofNat b1 :: ·)
       else if 194 ≤ b1 ∧ b1 ≤ 223 then none
       else if 224 ≤ b1 ∧ b1 ≤ 239 then none
       else if 240 ≤ b1 ∧ b1 ≤ 244 then none
       else none) := rfl

theorem uriDecodeToks_pct_lit (b1 : Nat) (c : Char) (rest : List UriTok) :
    uriDecodeToks (UriTok.pct b1 :: UriTok.lit c :: rest) =
      (if b1 < 128 then (uriDecodeToks (UriTok.lit c :: rest)).map (Char.ofNat b1 :: ·)
       else if 194 ≤ b1 ∧ b1 ≤ 223 then none
       else if 224 ≤ b1 ∧ b1 ≤ 239 then none
       else if 240 ≤ b1 ∧ b1 ≤ 244 then none
       else none) := rfl

theorem uriDecodeToks_pct_pct_nil (b1 b2 : Nat) :
    uriDecodeToks [UriTok.pct b1, UriTok.pct b2] =
      (if b1 < 128 then (uriDecodeToks [UriTok.pct b2]).map (Char.ofNat b1 :: ·)
       else if 194 ≤ b1 ∧ b1 ≤ 223 then
         (if 128 ≤ b2 ∧ b2 ≤ 191 then
           (uriDecodeToks ([] : List UriTok)).map
             (Char.ofNat ((b1 - 192) * 64 + (b2 - 128)) :: ·)
         else none)
       else if 224 ≤ b1 ∧ b1 ≤ 239 then none
       else if 240 ≤ b1 ∧ b1 ≤ 244 then none
       else none) := rfl

theorem uriDecodeToks_pct_pct_lit (b1 b2 : Nat) (c : Char) (rest : List UriTok) :
    uriDecodeToks (UriTok.pct b1 :: UriTok.pct b2 :: UriTok.lit c :: rest) =
      (if b1 < 128 then
        (uriDecodeToks (UriTok.pct b2 :: UriTok.lit c :: rest)).map (Char.ofNat b1 :: ·)
      else if 194 ≤ b1 ∧ b1 ≤ 223 then
        (if 128 ≤ b2 ∧ b2 ≤ 191 then
          (uriDecodeToks (UriTok.lit c :: rest)).map
            (Char.ofNat ((b1 - 192) * 64 + (b2 - 128)) :: ·)
        else none)
      else if 224 ≤ b1 ∧ b1 ≤ 239 then none
      else if 240 ≤ b1 ∧ b1 ≤ 244 then none
      else none) := rfl

theorem uriDecodeToks_pct3_nil (b1 b2 b3 : Nat) :
    uriDecodeToks [UriTok.pct b1, UriTok.pct b2, UriTok.pct b3] =
      (if b1 < 128 then
        (uriDecodeToks [UriTok.pct b2, UriTok.pct b3]).map (Char.ofNat b1 :: ·)
      else if 194 ≤ b1 ∧ b1 ≤ 223 then
        (if 128 ≤ b2 ∧ b2 ≤ 191 then
          (uriDecodeToks [UriTok.pct b3]).map
            (Char.ofNat ((b1 - 192) * 64 + (b2 - 128)) :: ·)
        else none)
      else if 224 ≤ b1 ∧ b1 ≤ 239 then
        (if (if b1 = 224 then 160 ≤ b2 ∧ b2 ≤ 191
             else if b1 = 237 then 128 ≤ b2 ∧ b2 ≤ 159
             else 128 ≤ b2 ∧ b2 ≤ 191) ∧ 128 ≤ b3 ∧ b3 ≤ 191 then
          (uriDecodeToks ([] : List UriTok)).map
            (Char.ofNat ((b1 - 224) * 4096 + (b2 - 128) * 64 + (b3 - 128)) :: ·)
        else none)
      else if 240 ≤ b1 ∧ b1 ≤ 244 then none
      else none) := rfl

theorem uriDecodeToks_pct3_lit (b1 b2 b3 : Nat) (c : Char) (rest : List UriTok) :
    uriDecodeToks (UriTok.pct b1 :: UriTok.pct b2 :: UriTok.pct b3 :: UriTok.lit c :: rest) =
      (if b1 < 128 then
        (uriDecodeToks (UriTok.pct b2 :: UriTok.pct b3 :: UriTok.lit c :: rest)).map
          (Char.ofNat b1 :: ·)
      else if 194 ≤ b1 ∧ b1 ≤ 223 then
        (if 128 ≤ b2 ∧ b2 ≤ 191 then
          (uriDecodeToks (UriTok.pct b3 :: UriTok.lit c :: rest)).map
            (Char.ofNat ((b1 - 192) * 64 + (b2 - 128)) :: ·)
        else none)
      else if 224 ≤ b1 ∧ b1 ≤ 239 then
        (if (if b1 = 224 then 160 ≤ b2 ∧ b2 ≤ 191
             else if b1 = 237 then 128 ≤ b2 ∧ b2 ≤ 159
             else 128 ≤ b2 ∧ b2 ≤ 191) ∧ 128 ≤ b3 ∧ b3 ≤ 191 then
          (uriDecodeToks (UriTok.lit c :: rest)).map
            (Char.ofNat ((b1 - 224) * 4096 + (b2 - 128) * 64 + (b3 - 128)) :: ·)
        else none)
      else if 240 ≤ b1 ∧ b1 ≤ 244 then none
      else none) := rfl

theorem uriDecodeToks_pct4 (b1 b2 b3 b4 : Nat) (rest : List UriTok) :
    uriDecodeToks
        (UriTok.pct b1 :: UriTok.pct b2 :: UriTok.pct b3 :: UriTok.pct b4 :: rest) =
      (if b1 < 128 then
        (uriDecodeToks (UriTok.pct b2 :: UriTok.pct b3 :: UriTok.pct b4 :: rest)).map
          (Char.ofNat b1 :: ·)
      else if 194 ≤ b1 ∧ b1 ≤ 223 then
        (if 128 ≤ b2 ∧ b2 ≤ 191 then
          (uriDecodeToks (UriTok.pct b3 :: UriTok.pct b4 :: rest)).map
            (Char.ofNat ((b1 - 192) * 64 + (b2 - 128)) :: ·)
        else none)
      else if 224 ≤ b1 ∧ b1 ≤ 239 then
        (if (if b1 = 224 then 160 ≤ b2 ∧ b2 ≤ 191
             else if b1 = 237 then 128 ≤ b2 ∧ b2 ≤ 159
             else 128 ≤ b2 ∧ b2 ≤ 191) ∧ 128 ≤ b3 ∧ b3 ≤ 191 then
          (uriDecodeToks (UriTok.pct b4 :: rest)).map
            (Char.ofNat ((b1 - 224) * 4096 + (b2 - 128) * 64 + (b3 - 128)) :: ·)
        else none)
      else if 240 ≤ b1 ∧ b1 ≤ 244 then
        (if (if b1 = 240 then 144 ≤ b2 ∧ b2 ≤ 191
             else if b1 = 244 then 128 ≤ b2 ∧ b2 ≤ 143
             else 128 ≤ b2 ∧ b2 ≤ 191) ∧ 128 ≤ b3 ∧ b3 ≤ 191 ∧ 128 ≤ b4 ∧ b4 ≤ 191 then
          (uriDecodeToks rest).map
            (Char.ofNat
              ((b1 - 240) * 262144 + (b2 - 128) * 4096 + (b3 - 128) * 64 + (b4 - 128)) :: ·)
        else none)
      else none) := rfl

theorem uriDecodeToks_append_dot (zs : List Char) :
    ∀ (n : Nat) (ts : List UriTok) (d : List Char), ts.length ≤ n →
      uriDecodeToks (ts ++ UriTok.lit '.' :: zs.map UriTok.lit) = some d →
      ∃ ds, uriDecodeToks ts = some ds ∧ d = ds ++ '.' :: zs := by
  have hbase : ∀ d, uriDecodeToks (UriTok.lit '.' :: zs.map UriTok.lit) = some d →
      d = '.' :: zs := by
    intro d h
    rw [uriDecodeToks_lit_cons, uriDecodeToks_lit] at h
    simpa using (Option.some.inj h).symm
  intro n
  induction n with
  | zero =>
    intro ts d hlen h
    have hts : ts = [] := List.length_eq_zero.mp (Nat.le_zero.mp hlen)
    subst hts
    exact ⟨[], rfl, hbase d h⟩
  | succ n ih =>
    intro ts d hlen h
    rcases ts with _ | ⟨t1, rest⟩
    · exact ⟨[], rfl, hbase d h⟩
    rcases t1 with c | b1
    · rw [List.cons_append, uriDecodeToks_lit_cons] at h
      obtain ⟨x, hx, hd⟩ := map_cons_some _ _ _ h
      obtain ⟨ds, hds, hxd⟩ :=
        ih rest x (by simp only [List.length_cons] at hlen ⊢; omega) hx
      refine ⟨c :: ds, ?_, ?_⟩
      · rw [uriDecodeToks_lit_cons, hds]
        rfl
      · rw [hd, hxd]
        rfl
    rcases rest with _ | ⟨t2, rest2⟩
    · simp only [List.cons_append, List.nil_append] at h
      rw [uriDecodeToks_pct_lit] at h
      by_cases hb1 : b1 < 128
      · rw [if_pos hb1] at h
        obtain ⟨x, hx, hd⟩ := map_cons_some _ _ _ h
        refine ⟨[Char.ofNat b1], ?_, ?_⟩
        · rw [uriDecodeToks_pct_one, if_pos hb1]
          rfl
        · rw [hd, hbase x hx]
          rfl
      · rw [if_neg hb1] at h
        split_ifs at h
    rcases t2 with c | b2
    · simp only [List.cons_append] at h
      rw [uriDecodeToks_pct_lit] at h
      by_cases hb1 : b1 < 128
      · rw [if_pos hb1, ← List.cons_append] at h
        obtain ⟨x, hx, hd⟩ := map_cons_some _ _ _ h
        obtain ⟨ds, hds, hxd⟩ :=
          ih (UriTok.lit c :: rest2) x
            (by simp only [List.length_cons] at hlen ⊢; omega) hx
        refine ⟨Char.ofNat b1 :: ds, ?_, ?_⟩
        · rw [uriDecodeToks_pct_lit, if_pos hb1, hds]
          rfl
        · rw [hd, hxd]
          rfl
      · rw [if_neg hb1] at h
        split_ifs at h
    rcases rest2 with _ | ⟨t3, rest3⟩
    · simp only [List.cons_append, List.nil_append] at h
      rw [uriDecodeToks_pct_pct_lit] at h
      by_cases hb1 : b1 < 128
      · rw [if_pos hb1] at h
        obtain ⟨x, hx, hd⟩ := map_cons_some _ _ _ h
        obtain ⟨ds, hds, hxd⟩ :=
          ih [UriTok.pct b2] x (by simp only [List.length_cons] at hlen ⊢; omega) hx
        refine ⟨Char.ofNat b1 :: ds, ?_, ?_⟩
        · rw [uriDecodeToks_pct_pct_nil, if_pos hb1, hds]
          rfl
        · rw [hd, hxd]
          rfl
      · by_cases h2 : 194 ≤ b1 ∧ b1 ≤ 223
        · rw [if_neg hb1, if_pos h2] at h
          by_cases hc2 : 128 ≤ b2 ∧ b2 ≤ 191
          · rw [if_pos hc2] at h
            obtain ⟨x, hx, hd⟩ := map_cons_some _ _ _ h
            refine ⟨[Char.ofNat ((b1 - 192) * 64 + (b2 - 128))], ?_, ?_⟩
            · rw [uriDecodeToks_pct_pct_nil, if_neg hb1, if_pos h2, if_pos hc2]
              rfl
            · rw [hd, hbase x hx]
              rfl
          · rw [if_neg hc2] at h
            exact Option.noConfusion h
        · rw [if_neg hb1, if_neg h2] at h
          split_ifs at h
    rcases t3 with c | b3
    · simp only [List.cons_append] at h
      rw [uriDecodeToks_pct_pct_lit] at h
      by_cases hb1 : b1 < 128
      · rw [if_pos hb1] at h
        obtain ⟨x, hx, hd⟩ := map_cons_some _ _ _ h
        obtain ⟨ds, hds, hxd⟩ :=
          ih (UriTok.pct b2 :: UriTok.lit c :: rest3) x
            (by simp only [List.length_cons] at hlen ⊢; omega)
            (by simpa only [List.cons_append] using hx)
        refine ⟨Char.ofNat b1 :: ds, ?_, ?_⟩
        · rw [uriDecodeToks_pct_pct_lit, if_pos hb1, hds]
          rfl
        · rw [hd, hxd]
          rfl
      · by_cases h2 : 194 ≤ b1 ∧ b1 ≤ 223
        · rw [if_neg hb1, if_pos h2] at h
          by_cases hc2 : 128 ≤ b2 ∧ b2 ≤ 191
          · rw [if_pos hc2, ← List.cons_append] at h
            obtain ⟨x, hx, hd⟩ := map_cons_some _ _ _ h
            obtain ⟨ds, hds, hxd⟩ :=
              ih (UriTok.lit c :: rest3) x
                (by simp only [List.length_cons] at hlen ⊢; omega) hx
            refine ⟨Char.ofNat ((b1 - 192) * 64 + (b2 - 128)) :: ds, ?_, ?_⟩
            · rw [uriDecodeToks_pct_pct_lit, if_neg hb1, if_pos h2, if_pos hc2, hds]
              rfl
            · rw [hd, hxd]
              rfl
          · rw [if_neg hc2] at h
            exact Option.noConfusion h
        · rw [if_neg hb1, if_neg h2] at h
          split_ifs at h
    rcases rest3 with _ | ⟨t4, rest4⟩
    · simp only [List.cons_append, List.nil_append] at h
      rw [uriDecodeToks_pct3_lit] at h
      by_cases hb1 : b1 < 128
      · rw [if_pos hb1] at h
        obtain ⟨x, hx, hd⟩ := map_cons_some _ _ _ h
        obtain ⟨ds, hds, hxd⟩ :=
          ih [UriTok.pct b2, UriTok.pct b3] x
            (by simp only [List.length_cons] at hlen ⊢; omega) hx
        refine ⟨Char.ofNat b1 :: ds, ?_, ?_⟩
        · rw [uriDecodeToks_pct3_nil, if_pos hb1, hds]
          rfl
        · rw [hd, hxd]
          rfl
      · by_cases h2 : 194 ≤ b1 ∧ b1 ≤ 223
        · rw [if_neg hb1, if_pos h2] at h
          by_cases hc2 : 128 ≤ b2 ∧ b2 ≤ 191
          · rw [if_pos hc2] at h
            obtain ⟨x, hx, hd⟩ := map_cons_some _ _ _ h
            obtain ⟨ds, hds, hxd⟩ :=
              ih [UriTok.pct b3] x
                (by simp only [List.length_cons] at hlen ⊢; omega) hx
            refine ⟨Char.ofNat ((b1 - 192) * 64 + (b2 - 128)) :: ds, ?_, ?_⟩
            · rw [uriDecodeToks_pct3_nil, if_neg hb1, if_pos h2, if_pos hc2, hds]
              rfl
            · rw [hd, hxd]
              rfl
          · rw [if_neg hc2] at h
            exact Option.noConfusion h
        · by_cases h3 : 224 ≤ b1 ∧ b1 ≤ 239
          · rw [if_neg hb1, if_neg h2, if_pos h3] at h
            by_cases hc3 : (if b1 = 224 then 160 ≤ b2 ∧ b2 ≤ 191
                else if b1 = 237 then 128 ≤ b2 ∧ b2 ≤ 159
                else 128 ≤ b2 ∧ b2 ≤ 191) ∧ 128 ≤ b3 ∧ b3 ≤ 191
            · rw [if_pos hc3] at h
              obtain ⟨x, hx, hd⟩ := map_cons_some _ _ _ h
              refine ⟨[Char.ofNat ((b1 - 224) * 4096 + (b2 - 128) * 64 + (b3 - 128))],
                ?_, ?_⟩
              · rw [uriDecodeToks_pct3_nil, if_neg hb1, if_neg h2, if_pos h3,
                  if_pos hc3]
                rfl
              · rw [hd, hbase x hx]
                rfl
            · rw [if_neg hc3] at h
              exact Option.noConfusion h
          · rw [if_neg hb1, if_neg h2, if_neg h3] at h
            split_ifs at h
    rcases t4 with c | b4
    · simp only [List.cons_append] at h
      rw [uriDecodeToks_pct3_lit] at h
      by_cases hb1 : b1 < 128
      · rw [if_pos hb1] at h
        obtain ⟨x, hx, hd⟩ := map_cons_some _ _ _ h
        obtain ⟨ds, hds, hxd⟩ :=
          ih (UriTok.pct b2 :: UriTok.pct b3 :: UriTok.lit c :: rest4) x
            (by simp only [List.length_cons] at hlen ⊢; omega)
            (by simpa only [List.cons_append] using hx)
        refine ⟨Char.ofNat b1 :: ds, ?_, ?_⟩
        · rw [uriDecodeToks_pct3_lit, if_pos hb1, hds]
          rfl
        · rw [hd, hxd]
          rfl
      · by_cases h2 : 194 ≤ b1 ∧ b1 ≤ 223
        · rw [if_neg hb1, if_pos h2] at h
          by_cases hc2 : 128 ≤ b2 ∧ b2 ≤ 191
          · rw [if_pos hc2] at h
            obtain ⟨x, hx, hd⟩ := map_cons_some _ _ _ h
            obtain ⟨ds, hds, hxd⟩ :=
              ih (UriTok.pct b3 :: UriTok.lit c :: rest4) x
                (by simp only [List.length_cons] at hlen ⊢; omega)
                (by simpa only [List.cons_append] using hx)
            refine ⟨Char.ofNat ((b1 - 192) * 64 + (b2 - 128)) :: ds, ?_, ?_⟩
            · rw [uriDecodeToks_pct3_lit, if_neg hb1, if_pos h2, if_pos hc2, hds]
              rfl
            · rw [hd, hxd]
              rfl
          · rw [if_neg hc2] at h
            exact Option.noConfusion h
        · by_cases h3 : 224 ≤ b1 ∧ b1 ≤ 239
          · rw [if_neg hb1, if_neg h2, if_pos h3] at h
            by_cases hc3 : (if b1 = 224 then 160 ≤ b2 ∧ b2 ≤ 191
                else if b1 = 237 then 128 ≤ b2 ∧ b2 ≤ 159
                else 128 ≤ b2 ∧ b2 ≤ 191) ∧ 128 ≤ b3 ∧ b3 ≤ 191
            · rw [if_pos hc3, ← List.cons_append] at h
              obtain ⟨x, hx, hd⟩ := map_cons_some _ _ _ h
              obtain ⟨ds, hds, hxd⟩ :=
                ih (UriTok.lit c :: rest4) x
                  (by simp only [List.length_cons] at hlen ⊢; omega) hx
              refine ⟨Char.ofNat ((b1 - 224) * 4096 + (b2 - 128) * 64 + (b3 - 128)) :: ds,
                ?_, ?_⟩
              · rw [uriDecodeToks_pct3_lit, if_neg hb1, if_neg h2, if_pos h3,
                  if_pos hc3, hds]
                rfl
              · rw [hd, hxd]
                rfl
            · rw [if_neg hc3] at h
              exact Option.noConfusion h
          · rw [if_neg hb1, if_neg h2, if_neg h3] at h
            split_ifs at h
    · simp only [List.cons_append] at h
      rw [uriDecodeToks_pct4] at h
      by_cases hb1 : b1 < 128
      · rw [if_pos hb1] at h
        obtain ⟨x, hx, hd⟩ := map_cons_some _ _ _ h
        obtain ⟨ds, hds, hxd⟩ :=
          ih (UriTok.pct b2 :: UriTok.pct b3 :: UriTok.pct b4 :: rest4) x
            (by simp only [List.length_cons] at hlen ⊢; omega)
            (by simpa only [List.cons_append] using hx)
        refine ⟨Char.ofNat b1 :: ds, ?_, ?_⟩
        · rw [uriDecodeToks_pct4, if_pos hb1, hds]
          rfl
        · rw [hd, hxd]
          rfl
      · by_cases h2 : 194 ≤ b1 ∧ b1 ≤ 223
        · rw [if_neg hb1, if_pos h2] at h
          by_cases hc2 : 128 ≤ b2 ∧ b2 ≤ 191
          · rw [if_pos hc2] at h
            obtain ⟨x, hx, hd⟩ := map_cons_some _ _ _ h
            obtain ⟨ds, hds, hxd⟩ :=
              ih (UriTok.pct b3 :: UriTok.pct b4 :: rest4) x
                (by simp only [List.length_cons] at hlen ⊢; omega)
                (by simpa only [List.cons_append] using hx)
            refine ⟨Char.ofNat ((b1 - 192) * 64 + (b2 - 128)) :: ds, ?_, ?_⟩
            · rw [uriDecodeToks_pct4, if_neg hb1, if_pos h2, if_pos hc2, hds]
              rfl
            · rw [hd, hxd]
              rfl
          · rw [if_neg hc2] at h
            exact Option.noConfusion h
        · by_cases h3 : 224 ≤ b1 ∧ b1 ≤ 239
          · rw [if_neg hb1, if_neg h2, if_pos h3] at h
            by_cases hc3 : (if b1 = 224 then 160 ≤ b2 ∧ b2 ≤ 191
                else if b1 = 237 then 128 ≤ b2 ∧ b2 ≤ 159
                else 128 ≤ b2 ∧ b2 ≤ 191) ∧ 128 ≤ b3 ∧ b3 ≤ 191
            · rw [if_pos hc3] at h
              obtain ⟨x, hx, hd⟩ := map_cons_some _ _ _ h
              obtain ⟨ds, hds, hxd⟩ :=
                ih (UriTok.pct b4 :: rest4) x
                  (by simp only [List.length_cons] at hlen ⊢; omega)
                  (by simpa only [List.cons_append] using hx)
              refine ⟨Char.ofNat ((b1 - 224) * 4096 + (b2 - 128) * 64 + (b3 - 128)) :: ds,
                ?_, ?_⟩
              · rw [uriDecodeToks_pct4, if_neg hb1, if_neg h2, if_pos h3,
                  if_pos hc3, hds]
                rfl
              · rw [hd, hxd]
                rfl
            · rw [if_neg hc3] at h
              exact Option.noConfusion h
          · by_cases h4 : 240 ≤ b1 ∧ b1 ≤ 244
            · rw [if_neg hb1, if_neg h2, if_neg h3, if_pos h4] at h
              by_cases hc4 : (if b1 = 240 then 144 ≤ b2 ∧ b2 ≤ 191
                  else if b1 = 244 then 128 ≤ b2 ∧ b2 ≤ 143
                  else 128 ≤ b2 ∧ b2 ≤ 191) ∧ 128 ≤ b3 ∧ b3 ≤ 191 ∧ 128 ≤ b4 ∧ b4 ≤ 191
              · rw [if_pos hc4] at h
                obtain ⟨x, hx, hd⟩ := map_cons_some _ _ _ h
                obtain ⟨ds, hds, hxd⟩ :=
                  ih rest4 x (by simp only [List.length_cons] at hlen ⊢; omega) hx
                refine ⟨Char.ofNat ((b1 - 240) * 262144 + (b2 - 128) * 4096 +
                    (b3 - 128) * 64 + (b4 - 128)) :: ds, ?_, ?_⟩
                · rw [uriDecodeToks_pct4, if_neg hb1, if_neg h2, if_neg h3, if_pos h4,
                    if_pos hc4, hds]
                  rfl
                · rw [hd, hxd]
                  rfl
              · rw [if_neg hc4] at h
                exact Option.noConfusion h
            · rw [if_neg hb1, if_neg h2, if_neg h3, if_neg h4] at h
              exact Option.noConfusion h

theorem decodeURIChars_append_dot (p zs : List Char) (hzs : ∀ c ∈ zs, c ≠ '%')
    (d : List Char) (h : decodeURIChars (p ++ '.' :: zs) = some d) :
    ∃ ds, d = ds ++ '.' :: zs := by
  rw [decodeURIChars] at h
  rcases ht : uriTokens (p ++ '.' :: zs) with _ | ts <;> rw [ht] at h
  · exact Option.noConfusion h
  · rw [Option.some_bind] at h
    obtain ⟨txs, _, hts⟩ := uriTokens_append_dot zs hzs p.length p ts le_rfl ht
    rw [hts] at h
    obtain ⟨ds, _, hd⟩ := uriDecodeToks_append_dot zs txs.length txs d le_rfl h
    exact ⟨ds, hd⟩

theorem urlsMatchL_symm (l1 l2 : List Char) : urlsMatchL l1 l2 = urlsMatchL l2 l1 := by
  simp only [urlsMatchL]
  generalize normChars l1 = A
  generalize normChars l2 = B
  rw [@Bool.beq_comm _ _ _ A B, @Bool.beq_comm _ _ _ (lastSeg A) (lastSeg B),
    Bool.or_comm (B.isSuffixOf A) (A.isSuffixOf B)]

/-! ## The claims -/

/-- C1: for every network, file path and `numParts ≥ 1`, if all part
fetches succeed then `mergeSplitFiles` returns exactly the bodies of
parts `1 … numParts` concatenated in ascending part-index order (the copy
loop is driven by the part index, and the pure-function network model
makes the result independent of response completion order by
construction), and the merged length is the sum of the part lengths. -/
theorem merge_roundtrip_concat (net : String → Response) (filePath : String)
    (numParts : Nat) (_hn : 1 ≤ numParts)
    (hok : ∀ p ∈ partPaths filePath numParts, (net p).ok = true) :
    mergeSplitFiles net filePath numParts =
      Except.ok (((partPaths filePath numParts).map (fun p => (net p).body)).flatten) ∧
    (((partPaths filePath numParts).map (fun p => (net p).body)).flatten).length =
      ((partPaths filePath numParts).map (fun p => (net p).body.length)).sum := by
  refine ⟨mergeSplitFiles_ok net filePath numParts hok, ?_⟩
  rw [List.length_flatten, List.map_map]
  rfl

/-- Witness for C1 at a concrete network with two parts. -/
theorem merge_roundtrip_concat_witness :
    mergeSplitFiles netC1 "f" 2 =
      Except.ok (((partPaths "f" 2).map (fun p => (netC1 p).body)).flatten) ∧
    (((partPaths "f" 2).map (fun p => (netC1 p).body)).flatten).length =
      ((partPaths "f" 2).map (fun p => (netC1 p).body.length)).sum :=
  merge_roundtrip_concat netC1 "f" 2 (by decide) (by decide)

/-- C2: if one of a configured file's part fetches is not `ok`, that
file's merge fails with an error naming the failing part and its response
status, its task publishes nothing to the buffer store, and its status
ends `failed`; a different configured file whose parts all succeed still
ends `ready`. -/
theorem part_failure_isolation (net : String → Response) (cfg : Config) (f g : FileSpec)
    (hf : f ∈ cfg.files) (hg : g ∈ cfg.files)
    (hnd : (cfg.files.map FileSpec.name).Nodup)
    (hfail : ∃ p ∈ partPaths (fullPathOf cfg.basePath f.name) f.parts, (net p).ok = false)
    (hok : ∀ p ∈ partPaths (fullPathOf cfg.basePath g.name) g.parts, (net p).ok = true) :
    (∃ p ∈ partPaths (fullPathOf cfg.basePath f.name) f.parts, (net p).ok = false ∧
       mergeOutcome net cfg.basePath f =
         Except.error ("Failed to load " ++ p ++ ": " ++ toString (net p).status)) ∧
    (∀ st : MergeState, (processFile net cfg.basePath st f).mergedFiles = st.mergedFiles) ∧
    objGet (autoMergeFiles net cfg).mergeStatus f.name = some MergeStatus.failed ∧
    objGet (autoMergeFiles net cfg).mergeStatus g.name = some MergeStatus.ready := by
  obtain ⟨p, hpmem, hpok, herr⟩ :=
    mergeSplitFiles_fail net (fullPathOf cfg.basePath f.name) f.parts hfail
  have herrO : mergeOutcome net cfg.basePath f =
      Except.error ("Failed to load " ++ p ++ ": " ++ toString (net p).status) := herr
  have hokO : mergeOutcome net cfg.basePath g =
      Except.ok (((partPaths (fullPathOf cfg.basePath g.name) g.parts).map
        (fun q => (net q).body)).flatten) :=
    mergeSplitFiles_ok net (fullPathOf cfg.basePath g.name) g.parts hok
  refine ⟨⟨p, hpmem, hpok, herrO⟩, ?_, ?_, ?_⟩
  · intro st
    exact processFile_fail_merged net cfg.basePath st f _ herrO
  · rw [autoMerge_status net cfg f hf hnd, herrO]
    rfl
  · rw [autoMerge_status net cfg g hg hnd, hokO]
    rfl

/-- Witness for C2: `x.bin` ends `failed`, `y.bin` ends `ready`. -/
theorem part_failure_isolation_witness :
    objGet (autoMergeFiles netC2 cfgC2).mergeStatus "x.bin" = some MergeStatus.failed ∧
    objGet (autoMergeFiles netC2 cfgC2).mergeStatus "y.bin" = some MergeStatus.ready :=
  ⟨(part_failure_isolation netC2 cfgC2 ⟨"x.bin", 3⟩ ⟨"y.bin", 1⟩ (by decide) (by decide)
      (by decide) (by decide) (by decide)).2.2.1,
   (part_failure_isolation netC2 cfgC2 ⟨"x.bin", 3⟩ ⟨"y.bin", 1⟩ (by decide) (by decide)
      (by decide) (by decide) (by decide)).2.2.2⟩

/-- C5: a request whose URL is a part file path — a path (no query
marker `?`; percent-escapes are allowed) followed by `.part` and a digit
string — is never intercepted: `shouldInterceptFile` returns no match for
it, for any configuration and any status map.  Normalization cannot erase
the `.part` suffix: a percent-escape straddling the boundary would have
to treat `.` as a hexadecimal digit, which makes decoding throw, and in
that case `normalizeUrl` returns the URL unchanged. -/
theorem part_requests_never_intercepted (cfg : Config)
    (stat : List (String × MergeStatus)) (p digits : List Char)
    (hq : ∀ c ∈ p, c ≠ '?') (hd : ∀ c ∈ digits, c.isDigit = true) :
    shouldInterceptFile cfg stat (String.mk (p ++ (".part".data ++ digits))) = none := by
  have hpartq : ∀ c ∈ (".part".data : List Char), c ≠ '?' := by decide
  have hpartp : ∀ c ∈ ("part".data : List Char), c ≠ '%' := by decide
  have hzs : ∀ c ∈ ("part".data ++ digits : List Char), c ≠ '%' := by
    intro c hc
    rcases List.mem_append.mp hc with h1 | h2
    · exact hpartp c h1
    · exact (isDigit_ne_special c (hd c h2)).2
  have hql : ∀ c ∈ p ++ (".part".data ++ digits), c ≠ '?' := by
    intro c hc
    rcases List.mem_append.mp hc with h1 | h2
    · exact hq c h1
    · rcases List.mem_append.mp h2 with h3 | h4
      · exact hpartq c h3
      · exact (isDigit_ne_special c (hd c h4)).1
  have hinf : List.IsInfix (".part".data)
      (normChars (p ++ (".part".data ++ digits))) := by
    rw [normChars, takeUntilQ_of_no_q _ hql]
    rcases hdec : decodeURIChars (p ++ (".part".data ++ digits)) with _ | dout
    · exact ⟨p, digits, by simp⟩
    · show List.IsInfix (".part".data) dout
      obtain ⟨ds, hds⟩ := decodeURIChars_append_dot p ("part".data ++ digits) hzs dout
        (by
          rw [show (p ++ '.' :: ("part".data ++ digits) : List Char) =
            p ++ (".part".data ++ digits) from rfl]
          exact hdec)
      rw [hds]
      exact ⟨ds, digits, by simp⟩
  show (if List.IsInfix (".part".data)
      (normChars (String.mk (p ++ (".part".data ++ digits))).data) then none else _) = none
  rw [show (String.mk (p ++ (".part".data ++ digits))).data = p ++ (".part".data ++ digits)
    from rfl, if_pos hinf]

/-- Witness for C5: `/assets/model.bin.part2` is not intercepted even
with its base file configured. -/
theorem part_requests_never_intercepted_witness :
    shouldInterceptFile cfgC5 [("model.bin", MergeStatus.ready)]
      (String.mk ("/assets/model.bin".data ++ (".part".data ++ "2".data))) = none :=
  part_requests_never_intercepted cfgC5 [("model.bin", MergeStatus.ready)]
    "/assets/model.bin".data "2".data (by decide) (by decide)

/-- C7: `urlsMatch` is symmetric for all URL pairs, but not transitive:
`"bar"` matches `"r"` (suffix) and `"r"` matches `"car"` (suffix), yet
`"bar"` does not match `"car"`. -/
theorem urlsMatch_symm_not_trans :
    (∀ a b : String, urlsMatch a b = urlsMatch b a) ∧
    (urlsMatch "bar" "r" = true ∧ urlsMatch "r" "car" = true ∧
      urlsMatch "bar" "car" = false) :=
  ⟨fun a b => urlsMatchL_symm a.data b.data, by decide, by decide, by decide⟩

theorem getMergedFile_exact (m : List (String × Buffer)) (filename : String)
    (b : Buffer) (h : objGet m filename = some b) : getMergedFile m filename = some b := by
  unfold getMergedFile
  rw [h]

theorem processFile_merged_preserve (net : String → Response) (basePath : String)
    (st : MergeState) (g : FileSpec) (v : String) (hv : v ∉ variantsOf basePath g) :
    objGet (processFile net basePath st g).mergedFiles v = objGet st.mergedFiles v := by
  rcases hout : mergeOutcome net basePath g with e | buf
  · rw [processFile_fail_merged net basePath st g e hout]
  · rw [processFile_ok_merged net basePath st g buf hout v, if_neg hv]

theorem foldl_merged_preserve (net : String → Response) (basePath : String)
    (l : List FileSpec) (st : MergeState) (v : String)
    (hl : ∀ g ∈ l, v ∉ variantsOf basePath g) :
    objGet (l.foldl (processFile net basePath) st).mergedFiles v =
      objGet st.mergedFiles v := by
  induction l generalizing st with
  | nil => rfl
  | cons a t ih =>
    rw [List.foldl_cons, ih _ (fun g hg => hl g (List.mem_cons_of_mem a hg)),
      processFile_merged_preserve net basePath st a v (hl a (List.mem_cons_self a t))]

/-- C3 counterexample: with `model.bin`'s merge status `failed`, a fetch
of the matching URL `/assets/model.bin` does NOT reject with the
interceptor's timeout error after a bounded wait — `shouldInterceptFile`
requires status `ready` and so yields no match, and the wrapped fetch
delegates to the original primitive immediately. -/
theorem failed_fetch_delegates_cex :
    objGet (autoMergeFiles netC3 cfgC3).mergeStatus "model.bin" = some MergeStatus.failed ∧
    urlsMatch "/assets/model.bin" "model.bin" = true ∧
    shouldInterceptFile cfgC3 (autoMergeFiles netC3 cfgC3).mergeStatus
      "/assets/model.bin" = none ∧
    wrappedFetch cfgC3 (autoMergeFiles netC3 cfgC3).mergeStatus
        (fun _ => (autoMergeFiles netC3 cfgC3).mergedFiles) (fun u a => (u, a))
        "/assets/model.bin" [] =
      FetchResult.delegated ("/assets/model.bin", []) := by
  refine ⟨by decide, by decide, by decide, ?_⟩
  have hno : shouldInterceptFile cfgC3 (autoMergeFiles netC3 cfgC3).mergeStatus
      "/assets/model.bin" = none := by decide
  simp [wrappedFetch, hno]

/-- C3 amended: a request URL matching only a configured file whose merge
failed is not intercepted and is not held until a timeout: the wrapped
fetch delegates it unchanged to the original primitive (no synthesized
response is ever produced for the failed file). -/
theorem failed_fetch_delegates (net : String → Response) (cfg : Config) (f : FileSpec)
    {α : Type} (orig : String → List String → α) (url : String) (args : List String)
    (hmem : f ∈ cfg.files) (hnd : (cfg.files.map FileSpec.name).Nodup)
    (hfail : ∃ p ∈ partPaths (fullPathOf cfg.basePath f.name) f.parts, (net p).ok = false)
    (honly : ∀ g ∈ cfg.files, g.name ≠ f.name →
      (urlsMatchL (normChars url.data) g.name.data ||
       urlsMatchL (normChars url.data) (fullPathOf cfg.basePath g.name).data) = false) :
    shouldInterceptFile cfg (autoMergeFiles net cfg).mergeStatus url = none ∧
    wrappedFetch cfg (autoMergeFiles net cfg).mergeStatus
        (fun _ => (autoMergeFiles net cfg).mergedFiles) orig url args =
      FetchResult.delegated (orig url args) := by
  have hfailed : objGet (autoMergeFiles net cfg).mergeStatus f.name =
      some MergeStatus.failed := by
    obtain ⟨p, hpmem, hpok, herr⟩ :=
      mergeSplitFiles_fail net (fullPathOf cfg.basePath f.name) f.parts hfail
    have herrO : mergeOutcome net cfg.basePath f =
        Except.error ("Failed to load " ++ p ++ ": " ++ toString (net p).status) := herr
    rw [autoMerge_status net cfg f hmem hnd, herrO]
    rfl
  have hnone : shouldInterceptFile cfg (autoMergeFiles net cfg).mergeStatus url = none := by
    simp only [shouldInterceptFile]
    by_cases hinf : List.IsInfix (".part".data) (normChars url.data)
    · rw [if_pos hinf]
    · rw [if_neg hinf, List.findSome?_eq_none_iff]
      intro g hg
      by_cases hgname : g.name = f.name
      · have hstat : (objGet (autoMergeFiles net cfg).mergeStatus g.name ==
            some MergeStatus.ready) = false := by
          rw [hgname, hfailed]
          decide
        simp [hstat]
      · simp [honly g hg hgname]
  exact ⟨hnone, by simp [wrappedFetch, hnone]⟩

/-- Witness for the amended C3 at the concrete failed configuration. -/
theorem failed_fetch_delegates_witness :
    shouldInterceptFile cfgC3 (autoMergeFiles netC3 cfgC3).mergeStatus
      "/assets/model.bin" = none ∧
    wrappedFetch cfgC3 (autoMergeFiles netC3 cfgC3).mergeStatus
        (fun _ => (autoMergeFiles netC3 cfgC3).mergedFiles)
        (fun u a => ([u], a)) "/assets/model.bin" ["cred"] =
      FetchResult.delegated (["/assets/model.bin"], ["cred"]) :=
  failed_fetch_delegates netC3 cfgC3 ⟨"model.bin", 1⟩ (fun u a => ([u], a))
    "/assets/model.bin" ["cred"] (by decide) (by decide) (by decide) (by decide)

/-- C4: an intercepted fetch resolves with a synthesized 200 response —
body the merged buffer, content type `application/wasm` exactly for
`.wasm` filenames, else `application/octet-stream` — as soon as a tick of
the 50 ms polling loop inside the 30 s window finds a buffer; if no tick
of the window finds one, it rejects with the timeout error naming the
file.  Either way the promise settles: it never hangs. -/
theorem fetch_poll_settles (bufAt : Nat → Option Buffer) (fname : String) :
    (∀ b k, k ≤ 600 → bufAt k = some b → (∀ j, j < k → bufAt j = none) →
       pollFetch bufAt fname 0 = FetchOutcome.resolved
         { status := 200, statusText := "OK",
           contentType :=
             if (".wasm".data).isSuffixOf fname.data then "application/wasm"
             else "application/octet-stream",
           contentLength := b.length, body := b }) ∧
    ((∀ k, k ≤ 600 → bufAt k = none) →
       pollFetch bufAt fname 0 =
         FetchOutcome.timedOut ("Timeout waiting for merged file: " ++ fname)) := by
  constructor
  · intro b k hk hb hmin
    exact pollFetch_resolves bufAt fname b k hk hb hmin
  · exact pollFetch_times_out bufAt fname

/-- Witness for C4: one store where the buffer is present from the first
tick (a `.wasm` file), one store where it never appears. -/
theorem fetch_poll_settles_witness :
    pollFetch (fun _ => some [1, 2, 3]) "a.wasm" 0 = FetchOutcome.resolved
      { status := 200, statusText := "OK",
        contentType :=
          if (".wasm".data).isSuffixOf "a.wasm".data then "application/wasm"
          else "application/octet-stream",
        contentLength := [1, 2, 3].length, body := [1, 2, 3] } ∧
    pollFetch (fun _ => none) "x.bin" 0 =
      FetchOutcome.timedOut ("Timeout waiting for merged file: " ++ "x.bin") :=
  ⟨(fetch_poll_settles (fun _ => some [1, 2, 3]) "a.wasm").1 [1, 2, 3] 0 (by decide) rfl
      (fun j hj => absurd hj (Nat.not_lt_zero j)),
   (fetch_poll_settles (fun _ => none) "x.bin").2 (fun _ _ => rfl)⟩

/-- C6: a request URL that matches no configured file is not intercepted:
the wrapped fetch and the wrapped XHR `send` both delegate to the
original primitives with the unchanged URL and arguments, so callers
observe exactly the original behavior. -/
theorem unmatched_url_delegates {α β : Type} (cfg : Config)
    (stat : List (String × MergeStatus)) (storeAt : Nat → List (String × Buffer))
    (store : List (String × Buffer)) (hasP hasL hasR : Bool)
    (orig : String → List String → α) (origSend : List String → β)
    (url : String) (args sendArgs : List String)
    (hno : ∀ f ∈ cfg.files,
      (urlsMatchL (normChars url.data) f.name.data ||
       urlsMatchL (normChars url.data) (fullPathOf cfg.basePath f.name).data) = false) :
    shouldInterceptFile cfg stat url = none ∧
    wrappedFetch cfg stat storeAt orig url args = FetchResult.delegated (orig url args) ∧
    wrappedXhrSend cfg stat store hasP hasL hasR origSend url sendArgs =
      XhrSendStep.delegated (origSend sendArgs) := by
  have hnone : shouldInterceptFile cfg stat url = none := by
    simp only [shouldInterceptFile]
    by_cases hinf : List.IsInfix (".part".data) (normChars url.data)
    · rw [if_pos hinf]
    · rw [if_neg hinf, List.findSome?_eq_none_iff]
      intro g hg
      simp [hno g hg]
  exact ⟨hnone, by simp [wrappedFetch, hnone], by simp [wrappedXhrSend, hnone]⟩

/-- Witness for C6: `other/script.js` matches nothing in the
configuration, so both wrapped primitives delegate unchanged. -/
theorem unmatched_url_delegates_witness :
    shouldInterceptFile cfgC6 [] "other/script.js" = none ∧
    wrappedFetch cfgC6 [] (fun _ => []) (fun u a => (u, a)) "other/script.js" ["opts"] =
      FetchResult.delegated ("other/script.js", ["opts"]) ∧
    wrappedXhrSend cfgC6 [] [] true true true (fun a => a) "other/script.js" ["body"] =
      XhrSendStep.delegated ["body"] :=
  unmatched_url_delegates cfgC6 [] (fun _ => []) [] true true true (fun u a => (u, a))
    (fun a => a) "other/script.js" ["opts"] ["body"] (by decide)

/-- C8 counterexample: both files end `ready`, but they share the
basename variant `x`, which the later merge overwrote: file `a/x`'s
logical-name variant looks up to `[1]` while its basename variant `x`
looks up to `[2]` — the five variants of `a/x` do not all return the
single buffer produced for `a/x`. -/
theorem variant_lookup_cex :
    objGet (autoMergeFiles netC8 cfgC8).mergeStatus "a/x" = some MergeStatus.ready ∧
    objGet (autoMergeFiles netC8 cfgC8).mergeStatus "b/x" = some MergeStatus.ready ∧
    variantsOf "" ⟨"a/x", 1⟩ = ["a/x", "a/x", "x", "a%2Fx", "a%2Fx"] ∧
    getMergedFile (autoMergeFiles netC8 cfgC8).mergedFiles "a/x" = some [1] ∧
    getMergedFile (autoMergeFiles netC8 cfgC8).mergedFiles "x" = some [2] := by
  decide

/-- C8 amended: for a configured file whose merge succeeded, every one of
the five filename variants it was published under looks up to that file's
single merged buffer, provided no distinct configured file publishes any
of the same variant keys (when variants collide — e.g. equal basenames —
the most recent merge to complete owns the shared key). -/
theorem variant_lookup_consistent (net : String → Response) (cfg : Config) (f : FileSpec)
    (b : Buffer) (v : String) (hmem : f ∈ cfg.files)
    (hnd : (cfg.files.map FileSpec.name).Nodup)
    (hok : mergeOutcome net cfg.basePath f = Except.ok b)
    (hdisj : ∀ g ∈ cfg.files, g ≠ f →
      ∀ w ∈ variantsOf cfg.basePath f, w ∉ variantsOf cfg.basePath g)
    (hv : v ∈ variantsOf cfg.basePath f) :
    getMergedFile (autoMergeFiles net cfg).mergedFiles v = some b := by
  obtain ⟨pre, post, hsplit⟩ := List.append_of_mem hmem
  have hobj : objGet (autoMergeFiles net cfg).mergedFiles v = some b := by
    rw [autoMergeFiles, hsplit, List.foldl_append, List.foldl_cons]
    have hnd2 : ((pre ++ f :: post).map FileSpec.name).Nodup := by rw [← hsplit]; exact hnd
    rw [List.map_append, List.map_cons] at hnd2
    have hfpost : ∀ g ∈ post, g.name ≠ f.name := by
      intro g hg heq
      have h1 : (FileSpec.name f :: post.map FileSpec.name).Nodup :=
        hnd2.of_append_right
      rw [List.nodup_cons] at h1
      exact h1.1 (heq ▸ List.mem_map_of_mem FileSpec.name hg)
    have hpres : ∀ g ∈ post, v ∉ variantsOf cfg.basePath g := by
      intro g hg
      have hgmem : g ∈ cfg.files := by
        rw [hsplit]
        exact List.mem_append_right pre (List.mem_cons_of_mem f hg)
      have hgne : g ≠ f := fun he => hfpost g hg (by rw [he])
      exact hdisj g hgmem hgne v hv
    rw [foldl_merged_preserve net cfg.basePath post _ v hpres]
    rw [processFile_ok_merged net cfg.basePath _ f b hok v, if_pos hv]
  exact getMergedFile_exact _ v b hobj

/-- Witness for the amended C8 at two of the variants (logical name and
full path) of the only configured file. -/
theorem variant_lookup_consistent_witness :
    getMergedFile (autoMergeFiles netC8w cfgC8w).mergedFiles "m.bin" = some [4, 5] ∧
    getMergedFile (autoMergeFiles netC8w cfgC8w).mergedFiles "/a/m.bin" = some [4, 5] :=
  ⟨variant_lookup_consistent netC8w cfgC8w ⟨"m.bin", 1⟩ [4, 5] "m.bin" (by decide)
      (by decide) (by decide) (by decide) (by decide),
   variant_lookup_consistent netC8w cfgC8w ⟨"m.bin", 1⟩ [4, 5] "/a/m.bin" (by decide)
      (by decide) (by decide) (by decide) (by decide)⟩

/-- C9: once a tick of the (unbounded) XHR polling loop finds a buffer
and all three handlers are installed, the loop completes with the
impersonated terminal state — status 200, status text `"OK"`, ready
state 4, response body equal to the buffer — and after the fixed 10 ms
delay fires, in exactly this order: a progress notification with
`loaded = total = ` buffer length, a load notification with the same
lengths, then the state-change callback (which, as for a genuine
transfer, carries no event payload of its own). -/
theorem xhr_completion_events (bufAt : Nat → Option Buffer) (b : Buffer) (k fuel : Nat)
    (hb : bufAt k = some b) (hmin : ∀ j, j < k → bufAt j = none) (hfuel : k < fuel) :
    xhrPoll bufAt true true true 0 fuel = some (synthesizeXhr b true true true) ∧
    (synthesizeXhr b true true true).status = 200 ∧
    (synthesizeXhr b true true true).statusText = "OK" ∧
    (synthesizeXhr b true true true).readyState = 4 ∧
    (synthesizeXhr b true true true).responseBody = b ∧
    (synthesizeXhr b true true true).delayMs = 10 ∧
    (synthesizeXhr b true true true).events =
      [XhrEvent.progress true b.length b.length, XhrEvent.load true b.length b.length,
        XhrEvent.readyStateChange] := by
  refine ⟨xhrPoll_completes bufAt true true true b k hb hmin fuel 0 (by omega) (by omega),
    rfl, rfl, rfl, rfl, rfl, rfl⟩

/-- Witness for C9: the buffer `[5, 6]` is available at the first tick. -/
theorem xhr_completion_events_witness :
    xhrPoll (fun _ => some [5, 6]) true true true 0 1 =
      some (synthesizeXhr [5, 6] true true true) ∧
    (synthesizeXhr [5, 6] true true true).status = 200 ∧
    (synthesizeXhr [5, 6] true true true).statusText = "OK" ∧
    (synthesizeXhr [5, 6] true true true).readyState = 4 ∧
    (synthesizeXhr [5, 6] true true true).responseBody = [5, 6] ∧
    (synthesizeXhr [5, 6] true true true).delayMs = 10 ∧
    (synthesizeXhr [5, 6] true true true).events =
      [XhrEvent.progress true [5, 6].length [5, 6].length,
        XhrEvent.load true [5, 6].length [5, 6].length, XhrEvent.readyStateChange] :=
  xhr_completion_events (fun _ => some [5, 6]) [5, 6] 0 1 rfl
    (fun j hj => absurd hj (Nat.not_lt_zero j)) (by decide)

/-- C10: whenever `shouldInterceptFile` names a file against the state
the orchestrator produced, that file's buffer is already retrievable from
the buffer store (the orchestrator publishes every variant strictly
before setting `ready`, and interception requires `ready`), so the very
first poll of the fetch interceptor resolves and its timeout branch is
unreachable under the code's own interception condition. -/
theorem interception_implies_buffer (net : String → Response) (cfg : Config)
    (url fname : String)
    (h : shouldInterceptFile cfg (autoMergeFiles net cfg).mergeStatus url = some fname) :
    ∃ b, getMergedFile (autoMergeFiles net cfg).mergedFiles fname = some b ∧
      pollFetch (fun _ => getMergedFile (autoMergeFiles net cfg).mergedFiles fname)
        fname 0 = FetchOutcome.resolved (synthResponse fname b) := by
  have hready : objGet (autoMergeFiles net cfg).mergeStatus fname =
      some MergeStatus.ready := by
    simp only [shouldInterceptFile] at h
    by_cases hinf : List.IsInfix (".part".data) (normChars url.data)
    · rw [if_pos hinf] at h
      exact absurd h (by simp)
    · rw [if_neg hinf] at h
      obtain ⟨file, hfmem, hfeq⟩ := List.exists_of_findSome?_eq_some h
      split at hfeq
      · next hcond =>
        obtain ⟨_, hstat⟩ := Bool.and_eq_true_iff.mp hcond
        have hname : file.name = fname := Option.some.inj hfeq
        rw [← hname]
        exact eq_of_beq hstat
      · exact absurd hfeq (by simp)
  have hsome := autoMerge_storeInv net cfg fname hready
  obtain ⟨b, hb⟩ := Option.isSome_iff_exists.mp hsome
  have hget := getMergedFile_exact _ fname b hb
  refine ⟨b, hget, ?_⟩
  rw [pollFetch.eq_def, hget]

/-- Witness for C10: after orchestration `m.wasm` is intercepted and its
buffer `[7]` is found by the very first poll. -/
theorem interception_implies_buffer_witness :
    getMergedFile (autoMergeFiles netC10 cfgC10).mergedFiles "m.wasm" = some [7] ∧
    pollFetch (fun _ => getMergedFile (autoMergeFiles netC10 cfgC10).mergedFiles "m.wasm")
      "m.wasm" 0 = FetchOutcome.resolved (synthResponse "m.wasm" [7]) := by
  obtain ⟨b, hb, hp⟩ :=
    interception_implies_buffer netC10 cfgC10 "m.wasm" "m.wasm" (by decide)
  have hb7 : getMergedFile (autoMergeFiles netC10 cfgC10).mergedFiles "m.wasm" =
      some [7] := by decide
  have hbb : b = [7] := by
    rw [hb7] at hb
    exact (Option.some.inj hb).symm
  subst hbb
  exact ⟨hb, hp⟩

end FileMerger
